import Mathlib

/-!
Verification of the lines-of-code aggregation pipeline and chart layout
engine of the github-readme-stats LOC fork.

The aggregation pipeline is embedded from `src/unnamed/part_000`
(`fetchLoc`, `fetchOneRepo`) and `src/src/fetchers/loc.js`; the chart
layout engine from the `renderLocChart` variants in
`src/src/fetchers/loc.js` and `src/unnamed/part_001`.

Numbers: JavaScript numeric values are modelled as `Int` where the source
only adds/compares integers (week timestamps, additions, deletions,
commits) and as `ℚ` where the source divides (pixel coordinates,
ratios, the `Date.now()/1000` clock).  Network effects are modelled by an
explicit `World` describing every provider response, and the number of
network requests issued is returned alongside the result.
-/

namespace Loc

/-- One weekly entry of a contributor-statistics payload:
`{w, a, d, c}` in the GitHub REST response. -/
structure WeekIn where
  w : Int
  a : Int
  d : Int
  c : Int
deriving DecidableEq, Repr, Inhabited

/-- `week.a === 0 && week.d === 0 && week.c === 0` — the skip test of the
merge loop. -/
def allZero (x : WeekIn) : Bool :=
  x.a == 0 && x.d == 0 && x.c == 0

/-- The `weeklyMap` of `fetchLoc`, as an association list in insertion
order; an entry `⟨w, a, d, c⟩` is the slot `weeklyMap[w] = {a, d, c}`. -/
def lookupW (m : List WeekIn) (wk : Int) : Option WeekIn :=
  m.find? (fun e => e.w == wk)

/-- One iteration of the merge loop of `fetchLoc` (step 2): skip an
all-zero week, otherwise add the week's counters into the slot keyed by
`x.w`, creating the slot on first use. -/
def addWeek (m : List WeekIn) (x : WeekIn) : List WeekIn :=
  if allZero x then m
  else if m.any (fun e => e.w == x.w) then
    m.map (fun e =>
      if e.w == x.w then ⟨e.w, e.a + x.a, e.d + x.d, e.c + x.c⟩ else e)
  else m ++ [⟨x.w, x.a, x.d, x.c⟩]

/-- The fully merged `weeklyMap` over a flat sequence of weekly entries
(the concatenation, repo by repo, of every matched contributor's weeks). -/
def weeklyMapOf (entries : List WeekIn) : List WeekIn :=
  entries.foldl addWeek []

/-- `Object.keys(weeklyMap).map(Number).sort((a, b) => a - b)` — the
slot keys in ascending order (the keys are distinct, so any comparison
sort returns the same list). -/
def sortedWeeks (entries : List WeekIn) : List Int :=
  List.insertionSort (· ≤ ·) ((weeklyMapOf entries).map (·.w))

/-- One aggregated weekly record of the output (`WeeklyData` in the
source's JSDoc). -/
structure WeeklyData where
  week : Int
  additions : Int
  deletions : Int
  commits : Int
deriving DecidableEq, Repr, Inhabited

/-- The `LocData` result of `fetchLoc`. -/
structure LocData where
  weeklyData : List WeeklyData
  totalAdditions : Int
  totalDeletions : Int
  totalCommits : Int
  netLines : Int
deriving DecidableEq, Repr, Inhabited

/-- Step 3 of `fetchLoc`: the sorted weekly array, one record per slot.
(The `none` branch is unreachable: every sorted key is a key of the map.) -/
def weeklyDataOf (entries : List WeekIn) : List WeeklyData :=
  (sortedWeeks entries).map (fun wk =>
    match lookupW (weeklyMapOf entries) wk with
    | some e => ⟨wk, e.a, e.d, e.c⟩
    | none => ⟨wk, 0, 0, 0⟩)

/-- The running accumulation `total += d.x` performed while `weeklyData`
is built. -/
def totalOf (f : WeeklyData → Int) (wd : List WeeklyData) : Int :=
  wd.foldl (fun t r => t + f r) 0

/-- Steps 2-3 of `fetchLoc`: merge a flat sequence of weekly entries and
package the sorted series with its totals. -/
def locDataOf (entries : List WeekIn) : LocData :=
  let weeklyData := weeklyDataOf entries
  let totalAdditions := totalOf (·.additions) weeklyData
  let totalDeletions := totalOf (·.deletions) weeklyData
  let totalCommits := totalOf (·.commits) weeklyData
  { weeklyData := weeklyData
    totalAdditions := totalAdditions
    totalDeletions := totalDeletions
    totalCommits := totalCommits
    netLines := totalAdditions - totalDeletions }

/-- A contributor entry of the stats payload: `author` is the login of
`c.author` (`none` models a null author), `weeks` its weekly list. -/
structure Contributor where
  author : Option String
  weeks : List WeekIn
deriving DecidableEq, Repr, Inhabited

/-- JS `String.prototype.toLowerCase` on the ASCII range (GitHub logins
are ASCII); written out over the character list so it evaluates by
kernel reduction. -/
def jsToLower (s : String) : String :=
  ⟨s.data.map (fun c =>
    if 65 ≤ c.toNat ∧ c.toNat ≤ 90 then Char.ofNat (c.toNat + 32) else c)⟩

/-- `res.data.find(c => c.author && c.author.login.toLowerCase() ===
username.toLowerCase())`. -/
def findContrib (username : String) (cs : List Contributor) : Option Contributor :=
  cs.find? (fun c =>
    match c.author with
    | some login => jsToLower login == jsToLower username
    | none => false)

/-- A single response of the per-repository contributor-statistics
endpoint: HTTP 202 ("still computing"), a non-array payload, or the
contributor list. -/
inductive StatsResp where
  | computing
  | notList
  | list (cs : List Contributor)
deriving DecidableEq, Repr

/-- The transport-level outcome for one repository: the promise rejected
(network error / timeout), or the endpoint answered — `r1` on the first
call and `r2` on the retry, if one is made. -/
inductive RepoOutcome where
  | failed
  | responds (r1 r2 : StatsResp)
deriving DecidableEq, Repr

/-- `fetchOneRepo` of `src/unnamed/part_000`: call once; on a 202 wait
1.5 s and call exactly once more; a non-array payload yields `null`.
The second component counts the network requests issued (a rejected
promise still issued its one request). -/
def fetchOneRepo (username : String) (o : RepoOutcome) : Option Contributor × Nat :=
  match o with
  | .failed => (none, 1)
  | .responds r1 r2 =>
    if r1 = .computing then
      (match r2 with
       | .list cs => findContrib username cs
       | _ => none, 2)
    else
      (match r1 with
       | .list cs => findContrib username cs
       | _ => none, 1)

/-- The merge loop's gathering of entries: fulfilled, non-null
contributors contribute their weeks in order; rejected or null results
are skipped. -/
def collectEntries (rs : List (Option Contributor)) : List WeekIn :=
  ((rs.filterMap id).map Contributor.weeks).flatten

/-- A repository reference `{owner, name}`. -/
structure RepoRef where
  owner : String
  name : String
deriving DecidableEq, Repr, Inhabited

/-- The deduplication key `` `${r.owner}/${r.name}` ``. -/
def repoKey (r : RepoRef) : String :=
  r.owner ++ "/" ++ r.name

/-- `repos.filter` with the `seen` set: keep the first occurrence of each
key, silently drop later duplicates. -/
def dedupGo (seen : List String) : List RepoRef → List RepoRef
  | [] => []
  | r :: rest =>
    if repoKey r ∈ seen then dedupGo seen rest
    else r :: dedupGo (repoKey r :: seen) rest

def dedupRepos (rs : List RepoRef) : List RepoRef :=
  dedupGo [] rs

/-- `include_orgs.split(",").map(o => o.trim()).filter(Boolean)`; an
absent or empty (falsy) parameter yields no orgs. -/
def parseOrgs : Option String → List String
  | none => []
  | some s => if s = "" then [] else ((s.splitOn ",").map String.trim).filter (· ≠ "")

/-- Every provider response the pipeline may consult. `userRepos = none`
models a failed user-repos query or a null `data.user`; `orgRepos org =
none` likewise for an organization; `stats` gives each repository's
contributor-statistics outcome. -/
structure World where
  userRepos : Option (List RepoRef)
  orgRepos : String → Option (List String)
  stats : RepoRef → RepoOutcome

/-- Step 1 of `fetchLoc`: the user's own repositories, then each listed
org's repositories (owner attributed to the org name as supplied), then
dedup by `owner/name`. A failed source contributes zero repositories. -/
def discover (w : World) (include_orgs : Option String) : List RepoRef :=
  let userList := match w.userRepos with
    | some l => l
    | none => []
  let orgLists := (parseOrgs include_orgs).map (fun org =>
    match w.orgRepos org with
    | some names => names.map (fun n => ⟨org, n⟩)
    | none => [])
  dedupRepos (userList ++ orgLists.flatten)

/-- The error `fetchLoc` may throw. -/
inductive FetchError where
  | missingParam (params : List String)
deriving DecidableEq, Repr

/-- `fetchLoc` of `src/unnamed/part_000`, over an explicit `World`.
Returns the result together with the number of network requests issued
(one for the user-repos query, one per parsed org, and what
`fetchOneRepo` issued per discovered repository). -/
def fetchLoc (username : String) (include_orgs : Option String) (w : World) :
    Except FetchError LocData × Nat :=
  if username = "" then (.error (.missingParam ["username"]), 0)
  else
    let repos := discover w include_orgs
    let results := repos.map (fun r => fetchOneRepo username (w.stats r))
    let entries := collectEntries (results.map (·.1))
    let calls := 1 + (parseOrgs include_orgs).length + (results.map (·.2)).sum
    (.ok (locDataOf entries), calls)

end Loc

namespace Chart

open Loc (WeeklyData LocData)

/-! Chart layout engine, embedded from `renderLocChart` in
`src/src/fetchers/loc.js` (cumulative area chart with optional months
window and linear time scale) and the monthly-bar variant in
`src/unnamed/part_001`.  Pixel arithmetic is exact over `ℚ`.  Purely
presentational boilerplate — the `<style>` and `<defs>` blocks, the
calendar-dependent x-axis date labels and the animation dash length
(which needs a real square root) — is elided from the assembled SVG
string; no claim depends on it. -/

/-- Fixed canvas and padding of every chart variant. -/
def width : ℚ := 850

def height : ℚ := 300

def padTop : ℚ := 50

def padRight : ℚ := 30

def padBottom : ℚ := 50

def padLeft : ℚ := 70

def chartW : ℚ := width - padLeft - padRight

def chartH : ℚ := height - padTop - padBottom

/-- JS `Math.round`: nearest integer, ties toward positive infinity. -/
def jsRound (q : ℚ) : Int := ⌊q + 1 / 2⌋

/-- JS `x.toFixed(1)` on the exact rational `x`: the value rounded to
tenths (ties toward positive infinity, as ECMAScript picks the larger
candidate), printed with one digit after the point. -/
def toFixed1 (q : ℚ) : String :=
  let n : Int := ⌊q * 10 + 1 / 2⌋
  let sign := if n < 0 then "-" else ""
  sign ++ toString (n.natAbs / 10) ++ "." ++ toString (n.natAbs % 10)

/-- The compact number formatter of both cumulative chart variants
(`src/src/fetchers/loc.js` line 383, `src/unnamed/part_001` line 73):
the branch test is on the signed value itself. -/
def formatNumCum (n : Int) : String :=
  if 1000000 ≤ n then toFixed1 ((n : ℚ) / 1000000) ++ "M"
  else if 1000 ≤ n then toFixed1 ((n : ℚ) / 1000) ++ "K"
  else toString n

/-- The compact number formatter of the monthly-bar variant
(`src/unnamed/part_001` line 221): the branch test is on `Math.abs(n)`. -/
def formatNumBar (n : Int) : String :=
  if 1000000 ≤ n.natAbs then toFixed1 ((n : ℚ) / 1000000) ++ "M"
  else if 1000 ≤ n.natAbs then toFixed1 ((n : ℚ) / 1000) ++ "K"
  else toString n

/-- A point of the cumulative series: `{week, value, additions,
deletions}` as built by the renderer's `map` over `weeklyData`. -/
structure ChartPoint where
  week : Int
  value : Int
  additions : Int
  deletions : Int
deriving DecidableEq, Repr, Inhabited

/-- The running net-lines accumulation (`cumulative += w.additions -
w.deletions`). -/
def cumGo (cumulative : Int) : List WeeklyData → List ChartPoint
  | [] => []
  | w :: rest =>
    let c := cumulative + w.additions - w.deletions
    ⟨w.week, c, w.additions, w.deletions⟩ :: cumGo c rest

/-- `allPoints`: the cumulative net-lines series over the full history. -/
def cumPoints (wd : List WeeklyData) : List ChartPoint :=
  cumGo 0 wd

/-- The months window of `renderLocChart`: when `months > 0`, keep the
points at or after `now - months*30*86400`; if that leaves none, fall
back to the full series. -/
def windowPoints (allPoints : List ChartPoint) (months : Int) (now : ℚ) :
    List ChartPoint :=
  if 0 < months then
    let cutoff : ℚ := now - (months : ℚ) * 30 * 86400
    let pts := allPoints.filter (fun p => decide (cutoff ≤ (p.week : ℚ)))
    if pts = [] then allPoints else pts
  else allPoints

/-- `points[0].week` (the callers guarantee a non-empty list). -/
def minTime (pts : List ChartPoint) : Int :=
  (pts.headD default).week

/-- `points[points.length - 1].week`. -/
def maxTime (pts : List ChartPoint) : Int :=
  (pts.getLastD default).week

/-- `maxTime - minTime || 1`: a zero range is replaced by 1. -/
def timeRange (pts : List ChartPoint) : Int :=
  if maxTime pts - minTime pts = 0 then 1 else maxTime pts - minTime pts

/-- `Math.max(...points.map(p => p.value), 0)`. -/
def maxVal (pts : List ChartPoint) : Int :=
  (pts.map (·.value)).foldl max 0

/-- `Math.min(...points.map(p => p.value), 0)`. -/
def minVal (pts : List ChartPoint) : Int :=
  (pts.map (·.value)).foldl min 0

/-- `maxVal - minVal || 1`: a zero range is replaced by 1. -/
def valRange (pts : List ChartPoint) : Int :=
  if maxVal pts - minVal pts = 0 then 1 else maxVal pts - minVal pts

/-- Linear horizontal scale of the months-window variant. -/
def toX (pts : List ChartPoint) (t : ℚ) : ℚ :=
  padLeft + ((t - (minTime pts : ℚ)) / (timeRange pts : ℚ)) * chartW

/-- Vertical scale (shared by both cumulative variants). -/
def toY (pts : List ChartPoint) (v : ℚ) : ℚ :=
  padTop + chartH - ((v - (minVal pts : ℚ)) / (valRange pts : ℚ)) * chartH

/-- Catmull-Rom spline path builder (`catmullRomPath` of
`src/src/fetchers/loc.js`); first and last points reuse themselves as
their missing neighbour (`Math.max(i-1, 0)` is `Nat` subtraction here). -/
def catmullRomPath (tension : ℚ) (pts : List (ℚ × ℚ)) : String :=
  if pts.length < 2 then ""
  else if pts.length = 2 then
    "M" ++ toFixed1 (pts.getD 0 (0, 0)).1 ++ "," ++ toFixed1 (pts.getD 0 (0, 0)).2 ++
      " L" ++ toFixed1 (pts.getD 1 (0, 0)).1 ++ "," ++ toFixed1 (pts.getD 1 (0, 0)).2
  else
    (List.range (pts.length - 1)).foldl
      (fun d i =>
        let p0 := pts.getD (i - 1) (0, 0)
        let p1 := pts.getD i (0, 0)
        let p2 := pts.getD (i + 1) (0, 0)
        let p3 := pts.getD (min (i + 2) (pts.length - 1)) (0, 0)
        let cp1x := p1.1 + (p2.1 - p0.1) * tension
        let cp1y := p1.2 + (p2.2 - p0.2) * tension
        let cp2x := p2.1 - (p3.1 - p1.1) * tension
        let cp2y := p2.2 - (p3.2 - p1.2) * tension
        d ++ " C" ++ toFixed1 cp1x ++ "," ++ toFixed1 cp1y ++ " " ++
          toFixed1 cp2x ++ "," ++ toFixed1 cp2y ++ " " ++
          toFixed1 p2.1 ++ "," ++ toFixed1 p2.2)
      ("M" ++ toFixed1 (pts.getD 0 (0, 0)).1 ++ "," ++ toFixed1 (pts.getD 0 (0, 0)).2)

/-- Render options with the theme colors already resolved: the source
resolves them through `getCardColors` and the luminance-based preset
choice (`src/common/color.js`, outside this repository's staged files);
no claim depends on which concrete colors come out. -/
structure RenderOpts where
  bg_color : String
  title_color : String
  text_color : String
  border_color : String
  line_color : String
  area_color : String
  point_color : String
  deletion_color : String
  hide_border : Bool
  custom_title : Option String
  months : Int
deriving DecidableEq, Repr

/-- The fixed-size empty-series canvas: background fill and a centered
"no data" message, exactly as returned when `weeklyData.length === 0`. -/
def emptyChartSvg (o : RenderOpts) : String :=
  "<svg width=\"850\" height=\"300\" xmlns=\"http://www.w3.org/2000/svg\">\n" ++
  "      <rect width=\"100%\" height=\"100%\" fill=\"#" ++ o.bg_color ++ "\" />\n" ++
  "      <text x=\"50%\" y=\"50%\" fill=\"#" ++ o.text_color ++
  "\" text-anchor=\"middle\" font-family=\"'Segoe UI', Ubuntu, Sans-Serif\" " ++
  "font-size=\"14\">No data available</text>\n    </svg>"

/-- `renderLocChart` of `src/src/fetchers/loc.js`: cumulative net-lines
area chart, linear time scale, optional months window.  `now` is
`Date.now() / 1000`. -/
def renderLocChart (data : LocData) (o : RenderOpts) (now : ℚ) : String :=
  if data.weeklyData = [] then emptyChartSvg o
  else
    let allPoints := cumPoints data.weeklyData
    let points := windowPoints allPoints o.months now
    let pixelPts := points.map (fun p => (toX points (p.week : ℚ), toY points (p.value : ℚ)))
    let linePath := catmullRomPath (3 / 10) pixelPts
    let bottomY := toY points (minVal points : ℚ)
    let areaPath := linePath ++ " L" ++ toFixed1 (pixelPts.getLastD (0, 0)).1 ++ "," ++
      toFixed1 bottomY ++ " L" ++ toFixed1 (pixelPts.headD (0, 0)).1 ++ "," ++
      toFixed1 bottomY ++ " Z"
    let yLabels := (List.range 5).map (fun i =>
      let val : ℚ := (minVal points : ℚ) + ((valRange points : ℚ) / 4) * (i : ℚ)
      (val, toY points val))
    let title := o.custom_title.getD "Lines of Code Contributed"
    let borderAttr := if o.hide_border then "" else
      " stroke=\"#" ++ o.border_color ++ "\" stroke-width=\"1\""
    let dotStep := max 1 (points.length / 8)
    let dotPoints := (points.enum.filter
      (fun pi => pi.1 % dotStep == 0 || pi.1 == points.length - 1)).map (·.2)
    "<svg width=\"850\" height=\"300\" viewBox=\"0 0 850 300\" fill=\"none\" " ++
    "xmlns=\"http://www.w3.org/2000/svg\">\n" ++
    "  <rect width=\"850\" height=\"300\" rx=\"4.5\" fill=\"#" ++ o.bg_color ++ "\"" ++
    borderAttr ++ " />\n" ++
    "  <text x=\"70\" y=\"30\" class=\"title\">" ++ title ++ "</text>\n" ++
    "  <text x=\"820\" y=\"22\" text-anchor=\"end\" class=\"stat\">+" ++
    formatNumCum data.totalAdditions ++ "</text>\n" ++
    "  <text x=\"730\" y=\"22\" text-anchor=\"end\" class=\"stat\">-" ++
    formatNumCum data.totalDeletions ++ "</text>\n" ++
    "  <text x=\"640\" y=\"22\" text-anchor=\"end\" class=\"stat\">" ++
    formatNumCum data.netLines ++ " net</text>\n  " ++
    String.intercalate "\n  " (yLabels.map (fun l =>
      "<text x=\"60\" y=\"" ++ toFixed1 (l.2 + 4) ++
      "\" text-anchor=\"end\" class=\"label\">" ++ formatNumCum (jsRound l.1) ++
      "</text>")) ++ "\n" ++
    "  <path d=\"" ++ areaPath ++ "\" fill=\"url(#areaGrad)\" class=\"fade-in-fast\" />\n" ++
    "  <path d=\"" ++ linePath ++ "\" class=\"line line-animated\" />\n  " ++
    String.intercalate "\n  " (dotPoints.map (fun p =>
      "<circle cx=\"" ++ toFixed1 (toX points (p.week : ℚ)) ++ "\" cy=\"" ++
      toFixed1 (toY points (p.value : ℚ)) ++ "\" r=\"2.5\" class=\"dot\" />")) ++
    "\n</svg>"

/-- One month bucket of the monthly-bar variant. -/
structure MonthEntry where
  year : Int
  month : Int
  additions : Int
  deletions : Int
deriving DecidableEq, Repr, Inhabited

/-- `Math.max(...monthlyData.map(m => m.additions), 1)`: the peak of the
visible additions, clamped to at least 1. -/
def maxAdd (md : List MonthEntry) : Int :=
  (md.map (·.additions)).foldl max 1

/-- `Math.max(...monthlyData.map(m => m.deletions), 1)`. -/
def maxDel (md : List MonthEntry) : Int :=
  (md.map (·.deletions)).foldl max 1

/-- `addRatio = maxAdd / (maxAdd + maxDel)`. -/
def addRatio (md : List MonthEntry) : ℚ :=
  (maxAdd md : ℚ) / ((maxAdd md : ℚ) + (maxDel md : ℚ))

/-- `baselineY = padding.top + chartH * addRatio`: the bar chart's
baseline. -/
def baselineY (md : List MonthEntry) : ℚ :=
  padTop + chartH * addRatio md

/-- Modelled from the spec: the baseline position as §4.4 words it,
`padding.top + chartH * (maxAdditions / (maxAdditions + maxDeletions))`
over the visible months' actual peaks, with no clamping. -/
def specBaselineY (md : List MonthEntry) : ℚ :=
  let a : ℚ := ((md.map (·.additions)).foldl max 0 : Int)
  let d : ℚ := ((md.map (·.deletions)).foldl max 0 : Int)
  padTop + chartH * (a / (a + d))

end Chart

namespace Loc

/-! Characterization of the merge: after folding `addWeek` over the
entries, the slot at key `wk` holds exactly the componentwise sum of the
active (not-all-zero) entries with that week. -/

/-- The active entries with week `wk`. -/
def activeAt (entries : List WeekIn) (wk : Int) : List WeekIn :=
  entries.filter (fun x => !allZero x && x.w == wk)

/-- Componentwise sums of the active entries at `wk`. -/
def sumA (entries : List WeekIn) (wk : Int) : Int :=
  ((activeAt entries wk).map (·.a)).sum

def sumD (entries : List WeekIn) (wk : Int) : Int :=
  ((activeAt entries wk).map (·.d)).sum

def sumC (entries : List WeekIn) (wk : Int) : Int :=
  ((activeAt entries wk).map (·.c)).sum

/-- Whether any active entry has week `wk` (i.e. the merged map has a
slot at `wk`). -/
def hasActive (entries : List WeekIn) (wk : Int) : Bool :=
  entries.any (fun x => !allZero x && x.w == wk)

theorem lookupW_map_upd (m : List WeekIn) (x : WeekIn) (wk : Int) :
    lookupW (m.map (fun e =>
        if e.w == x.w then (⟨e.w, e.a + x.a, e.d + x.d, e.c + x.c⟩ : WeekIn) else e)) wk
      = (lookupW m wk).map (fun e =>
          if e.w == x.w then ⟨e.w, e.a + x.a, e.d + x.d, e.c + x.c⟩ else e) := by
  unfold lookupW
  rw [List.find?_map]
  have hp : ((fun e : WeekIn => e.w == wk) ∘ fun e : WeekIn =>
      if e.w == x.w then (⟨e.w, e.a + x.a, e.d + x.d, e.c + x.c⟩ : WeekIn) else e) =
      (fun e : WeekIn => e.w == wk) := by
    funext e
    by_cases h : e.w == x.w <;> simp [Function.comp, h]
  rw [hp]

theorem lookupW_append_single (m : List WeekIn) (y : WeekIn) (wk : Int) :
    lookupW (m ++ [y]) wk = (lookupW m wk).or (if y.w == wk then some y else none) := by
  unfold lookupW
  rw [List.find?_append]
  congr 1
  by_cases h : y.w == wk <;> simp [List.find?, h]

theorem lookup_addWeek (m : List WeekIn) (x : WeekIn) (wk : Int) :
    lookupW (addWeek m x) wk =
      if allZero x then lookupW m wk
      else if x.w = wk then
        (match lookupW m wk with
         | some e => some ⟨e.w, e.a + x.a, e.d + x.d, e.c + x.c⟩
         | none => some ⟨x.w, x.a, x.d, x.c⟩)
      else lookupW m wk := by
  unfold addWeek
  by_cases hz : allZero x
  · simp [hz]
  · simp only [hz, if_false, Bool.false_eq_true]
    by_cases hany : m.any (fun e => e.w == x.w)
    · rw [if_pos hany, lookupW_map_upd]
      by_cases hx : x.w = wk
      · subst hx
        rcases hsome : lookupW m x.w with _ | e
        · exfalso
          rw [List.any_eq_true] at hany
          obtain ⟨e, hem, hew⟩ := hany
          have : (lookupW m x.w).isSome := by
            unfold lookupW
            rw [List.find?_isSome]
            exact ⟨e, hem, hew⟩
          rw [hsome] at this
          simp at this
        · have hew : e.w = x.w := by
            have := List.find?_some hsome
            simpa using this
          simp [hew]
      · rcases hsome : lookupW m wk with _ | e
        · simp [hx]
        · have hew : e.w = wk := by
            have := List.find?_some hsome
            simpa using this
          have hne : (e.w == x.w) = false := by
            rw [beq_eq_false_iff_ne]
            rw [hew]
            exact fun hh => hx hh.symm
          simp only [if_neg hx, Option.map_some']
          rw [hne]
          simp
    · rw [if_neg hany, lookupW_append_single]
      by_cases hx : x.w = wk
      · subst hx
        have hnone : lookupW m x.w = none := by
          unfold lookupW
          rw [List.find?_eq_none]
          intro e hem
          rw [List.any_eq_true] at hany
          exact fun hew => hany ⟨e, hem, hew⟩
        simp [hnone]
      · have : ((⟨x.w, x.a, x.d, x.c⟩ : WeekIn).w == wk) = false := by
          simp
          omega
        simp [hx, this]

theorem activeAt_cons (x : WeekIn) (rest : List WeekIn) (wk : Int) :
    activeAt (x :: rest) wk =
      if !allZero x && x.w == wk then x :: activeAt rest wk else activeAt rest wk := by
  unfold activeAt
  rw [List.filter_cons]

theorem hasActive_cons (x : WeekIn) (rest : List WeekIn) (wk : Int) :
    hasActive (x :: rest) wk = ((!allZero x && x.w == wk) || hasActive rest wk) := by
  unfold hasActive
  rw [List.any_cons]

theorem lookup_foldl_some (entries : List WeekIn) :
    ∀ (m : List WeekIn) (wk : Int) (e : WeekIn), lookupW m wk = some e →
      lookupW (entries.foldl addWeek m) wk =
        some ⟨e.w, e.a + sumA entries wk, e.d + sumD entries wk, e.c + sumC entries wk⟩ := by
  induction entries with
  | nil =>
    intro m wk e h
    simp [sumA, sumD, sumC, activeAt, h]
  | cons x rest ih =>
    intro m wk e h
    rw [List.foldl_cons]
    by_cases hp : (!allZero x && x.w == wk) = true
    · have hp' : allZero x = false ∧ x.w = wk := by simpa using hp
      have hz : allZero x = false := hp'.1
      have hx : x.w = wk := hp'.2
      have hadd : lookupW (addWeek m x) wk =
          some ⟨e.w, e.a + x.a, e.d + x.d, e.c + x.c⟩ := by
        rw [lookup_addWeek, hz]
        simp [hx, h]
      have := ih (addWeek m x) wk _ hadd
      rw [this]
      simp only [sumA, sumD, sumC, activeAt_cons, hp, if_true]
      simp [Int.add_assoc]
    · have hadd : lookupW (addWeek m x) wk = lookupW m wk := by
        rw [lookup_addWeek]
        by_cases hz : allZero x
        · simp [hz]
        · have hx : x.w ≠ wk := by
            intro hxx
            apply hp
            simp [hz, hxx]
          simp [hz, hx]
      have hpf : (!allZero x && x.w == wk) = false := Bool.eq_false_iff.mpr hp
      have := ih (addWeek m x) wk e (hadd.trans h)
      rw [this]
      simp only [sumA, sumD, sumC, activeAt_cons, hpf, Bool.false_eq_true, if_false]

theorem lookup_foldl_none (entries : List WeekIn) :
    ∀ (m : List WeekIn) (wk : Int), lookupW m wk = none →
      lookupW (entries.foldl addWeek m) wk =
        if hasActive entries wk then
          some ⟨wk, sumA entries wk, sumD entries wk, sumC entries wk⟩
        else none := by
  induction entries with
  | nil =>
    intro m wk h
    simp [hasActive, h]
  | cons x rest ih =>
    intro m wk h
    rw [List.foldl_cons]
    by_cases hp : (!allZero x && x.w == wk) = true
    · have hp' : allZero x = false ∧ x.w = wk := by simpa using hp
      have hz : allZero x = false := hp'.1
      have hx : x.w = wk := hp'.2
      have hadd : lookupW (addWeek m x) wk = some ⟨x.w, x.a, x.d, x.c⟩ := by
        rw [lookup_addWeek, hz]
        simp [hx, h]
      have := lookup_foldl_some rest (addWeek m x) wk _ hadd
      rw [this]
      have hha : hasActive (x :: rest) wk = true := by
        rw [hasActive_cons, hp]
        simp
      rw [hha]
      simp only [sumA, sumD, sumC, activeAt_cons, hp, if_true, if_pos]
      simp [hx]
    · have hadd : lookupW (addWeek m x) wk = lookupW m wk := by
        rw [lookup_addWeek]
        by_cases hz : allZero x
        · simp [hz]
        · have hx : x.w ≠ wk := by
            intro hxx
            apply hp
            simp [hz, hxx]
          simp [hz, hx]
      have hpf : (!allZero x && x.w == wk) = false := Bool.eq_false_iff.mpr hp
      have := ih (addWeek m x) wk (hadd.trans h)
      rw [this]
      have hha : hasActive (x :: rest) wk = hasActive rest wk := by
        rw [hasActive_cons, hpf]
        simp
      rw [hha]
      simp only [sumA, sumD, sumC, activeAt_cons, hpf, Bool.false_eq_true, if_false]

theorem lookup_weeklyMapOf (entries : List WeekIn) (wk : Int) :
    lookupW (weeklyMapOf entries) wk =
      if hasActive entries wk then
        some ⟨wk, sumA entries wk, sumD entries wk, sumC entries wk⟩
      else none :=
  lookup_foldl_none entries [] wk rfl

theorem mem_keys_iff_lookup (m : List WeekIn) (wk : Int) :
    wk ∈ m.map (·.w) ↔ (lookupW m wk).isSome := by
  unfold lookupW
  rw [List.find?_isSome, List.mem_map]
  constructor
  · rintro ⟨e, hem, hw⟩
    exact ⟨e, hem, by simp [hw]⟩
  · rintro ⟨e, hem, hw⟩
    exact ⟨e, hem, by simpa using hw⟩

theorem mem_keys_weeklyMapOf (entries : List WeekIn) (wk : Int) :
    wk ∈ (weeklyMapOf entries).map (·.w) ↔ hasActive entries wk = true := by
  rw [mem_keys_iff_lookup, lookup_weeklyMapOf]
  by_cases h : hasActive entries wk <;> simp [h]

theorem nodup_keys_addWeek (m : List WeekIn) (x : WeekIn)
    (h : (m.map (·.w)).Nodup) : ((addWeek m x).map (·.w)).Nodup := by
  unfold addWeek
  by_cases hz : allZero x
  · simpa [hz] using h
  · simp only [hz, if_false, Bool.false_eq_true]
    by_cases hany : m.any (fun e => e.w == x.w)
    · rw [if_pos hany]
      have hkeys : ((m.map (fun e =>
          if e.w == x.w then (⟨e.w, e.a + x.a, e.d + x.d, e.c + x.c⟩ : WeekIn) else e)).map (·.w))
          = m.map (·.w) := by
        rw [List.map_map]
        apply List.map_congr_left
        intro e _
        by_cases hew : e.w == x.w <;> simp [Function.comp, hew]
      rw [hkeys]
      exact h
    · rw [if_neg hany, List.map_append]
      have hnot : x.w ∉ m.map (·.w) := by
        intro hmem
        apply hany
        rw [List.any_eq_true]
        rw [List.mem_map] at hmem
        obtain ⟨e, hem, hew⟩ := hmem
        exact ⟨e, hem, by simp [hew]⟩
      simp [List.nodup_append, h, hnot]

theorem nodup_keys_weeklyMapOf (entries : List WeekIn) :
    ((weeklyMapOf entries).map (·.w)).Nodup := by
  have main : ∀ (es : List WeekIn) (m : List WeekIn),
      (m.map (·.w)).Nodup → ((es.foldl addWeek m).map (·.w)).Nodup := by
    intro es
    induction es with
    | nil => exact fun m h => h
    | cons x rest ih =>
      intro m h
      rw [List.foldl_cons]
      exact ih _ (nodup_keys_addWeek m x h)
  exact main entries [] (by simp)

theorem sortedWeeks_sorted (entries : List WeekIn) :
    (sortedWeeks entries).Sorted (· ≤ ·) :=
  List.sorted_insertionSort _ _

theorem sortedWeeks_perm (entries : List WeekIn) :
    List.Perm (sortedWeeks entries) ((weeklyMapOf entries).map (·.w)) :=
  List.perm_insertionSort _ _

theorem sortedWeeks_nodup (entries : List WeekIn) :
    (sortedWeeks entries).Nodup :=
  (sortedWeeks_perm entries).nodup_iff.mpr (nodup_keys_weeklyMapOf entries)

theorem mem_sortedWeeks (entries : List WeekIn) (wk : Int) :
    wk ∈ sortedWeeks entries ↔ hasActive entries wk = true :=
  ((sortedWeeks_perm entries).mem_iff).trans (mem_keys_weeklyMapOf entries wk)

theorem sortedWeeks_pairwise_lt (entries : List WeekIn) :
    (sortedWeeks entries).Pairwise (· < ·) :=
  (sortedWeeks_sorted entries).lt_of_le (sortedWeeks_nodup entries)

/-- The merged weekly series in closed form: the sorted slot keys, each
with the componentwise sum of the active entries at that week. -/
theorem weeklyDataOf_eq (entries : List WeekIn) :
    weeklyDataOf entries = (sortedWeeks entries).map (fun wk =>
      ⟨wk, sumA entries wk, sumD entries wk, sumC entries wk⟩) := by
  unfold weeklyDataOf
  apply List.map_congr_left
  intro wk hwk
  have hact : hasActive entries wk = true := (mem_sortedWeeks entries wk).1 hwk
  rw [lookup_weeklyMapOf, if_pos hact]

theorem locDataOf_weeklyData (entries : List WeekIn) :
    (locDataOf entries).weeklyData = weeklyDataOf entries :=
  rfl

/-- The merged series is strictly ascending by week. -/
theorem weeklyDataOf_pairwise (entries : List WeekIn) :
    (weeklyDataOf entries).Pairwise (fun a b => a.week < b.week) := by
  rw [weeklyDataOf_eq, List.pairwise_map]
  exact sortedWeeks_pairwise_lt entries

/-- With non-negative counters, no merged record is all-zero. -/
theorem weeklyDataOf_no_allzero (entries : List WeekIn)
    (hnn : ∀ x ∈ entries, 0 ≤ x.a ∧ 0 ≤ x.d ∧ 0 ≤ x.c) :
    ∀ r ∈ weeklyDataOf entries,
      ¬(r.additions = 0 ∧ r.deletions = 0 ∧ r.commits = 0) := by
  intro r hr
  rw [weeklyDataOf_eq, List.mem_map] at hr
  obtain ⟨wk, hwk, hrec⟩ := hr
  have hact : hasActive entries wk = true := (mem_sortedWeeks entries wk).1 hwk
  rw [hasActive, List.any_eq_true] at hact
  obtain ⟨e, hem, hpe⟩ := hact
  have he : e ∈ activeAt entries wk := by
    unfold activeAt
    rw [List.mem_filter]
    exact ⟨hem, hpe⟩
  have hp' : allZero e = false ∧ e.w = wk := by simpa using hpe
  have henn := hnn e hem
  have hsome : 0 < e.a ∨ 0 < e.d ∨ 0 < e.c := by
    have hz : allZero e = false := hp'.1
    by_contra hcon
    push_neg at hcon
    have ha0 : e.a = 0 := le_antisymm (hcon.1) henn.1
    have hd0 : e.d = 0 := le_antisymm (hcon.2.1) henn.2.1
    have hc0 : e.c = 0 := le_antisymm (hcon.2.2) henn.2.2
    simp [allZero, ha0, hd0, hc0] at hz
  have hnnAt : ∀ x ∈ activeAt entries wk, 0 ≤ x.a ∧ 0 ≤ x.d ∧ 0 ≤ x.c := by
    intro x hx
    unfold activeAt at hx
    rw [List.mem_filter] at hx
    exact hnn x hx.1
  rintro ⟨hA, hD, hC⟩
  have hra : r.additions = sumA entries wk := by rw [← hrec]
  have hrd : r.deletions = sumD entries wk := by rw [← hrec]
  have hrc : r.commits = sumC entries wk := by rw [← hrec]
  rcases hsome with hpos | hpos | hpos
  · have hle : e.a ≤ sumA entries wk := by
      apply List.single_le_sum
      · intro v hv
        rw [List.mem_map] at hv
        obtain ⟨y, hy, hyv⟩ := hv
        rw [← hyv]
        exact (hnnAt y hy).1
      · rw [List.mem_map]
        exact ⟨e, he, rfl⟩
    rw [← hra, hA] at hle
    omega
  · have hle : e.d ≤ sumD entries wk := by
      apply List.single_le_sum
      · intro v hv
        rw [List.mem_map] at hv
        obtain ⟨y, hy, hyv⟩ := hv
        rw [← hyv]
        exact (hnnAt y hy).2.1
      · rw [List.mem_map]
        exact ⟨e, he, rfl⟩
    rw [← hrd, hD] at hle
    omega
  · have hle : e.c ≤ sumC entries wk := by
      apply List.single_le_sum
      · intro v hv
        rw [List.mem_map] at hv
        obtain ⟨y, hy, hyv⟩ := hv
        rw [← hyv]
        exact (hnnAt y hy).2.2
      · rw [List.mem_map]
        exact ⟨e, he, rfl⟩
    rw [← hrc, hC] at hle
    omega

theorem foldl_add_eq_sum (f : WeeklyData → Int) :
    ∀ (l : List WeeklyData) (a : Int), l.foldl (fun t r => t + f r) a = a + (l.map f).sum := by
  intro l
  induction l with
  | nil => intro a; simp
  | cons x rest ih =>
    intro a
    rw [List.foldl_cons, ih, List.map_cons, List.sum_cons]
    ring

theorem totalOf_eq_sum (f : WeeklyData → Int) (wd : List WeeklyData) :
    totalOf f wd = (wd.map f).sum := by
  unfold totalOf
  rw [foldl_add_eq_sum]
  ring

/-- Unfolding `fetchLoc` for a non-empty username. -/
theorem fetchLoc_ok (u : String) (io : Option String) (w : World) (d : LocData)
    (h : (fetchLoc u io w).1 = .ok d) :
    d = locDataOf (collectEntries
      (((discover w io).map (fun r => fetchOneRepo u (w.stats r))).map (·.1))) := by
  by_cases hu : u = ""
  · rw [fetchLoc, if_pos hu] at h
    simp at h
  · rw [fetchLoc, if_neg hu] at h
    simpa using h.symm

/-- A week entry gathered by `collectEntries` comes from some matched
contributor's week list. -/
theorem mem_collectEntries (rs : List (Option Contributor)) (x : WeekIn)
    (hx : x ∈ collectEntries rs) : ∃ c, some c ∈ rs ∧ x ∈ c.weeks := by
  unfold collectEntries at hx
  rw [List.mem_flatten] at hx
  obtain ⟨l, hl, hxl⟩ := hx
  rw [List.mem_map] at hl
  obtain ⟨c, hc, hcl⟩ := hl
  rw [List.mem_filterMap] at hc
  obtain ⟨oc, hoc, hid⟩ := hc
  refine ⟨c, ?_, by rw [hcl]; exact hxl⟩
  have : oc = some c := by simpa using hid
  rwa [this] at hoc

/-- A non-null `fetchOneRepo` result is a contributor of one of the two
responses' lists. -/
theorem fetchOneRepo_some (u : String) (o : RepoOutcome) (c : Contributor)
    (h : (fetchOneRepo u o).1 = some c) :
    ∃ r1 r2 cs, o = .responds r1 r2 ∧ (r1 = .list cs ∨ r2 = .list cs) ∧ c ∈ cs := by
  cases o with
  | failed => simp [fetchOneRepo] at h
  | responds r1 r2 =>
    by_cases h1 : r1 = StatsResp.computing
    · subst h1
      cases r2 with
      | computing => simp [fetchOneRepo] at h
      | notList => simp [fetchOneRepo] at h
      | list cs =>
        exact ⟨_, _, cs, rfl, Or.inr rfl, List.mem_of_find?_eq_some h⟩
    · cases r1 with
      | computing => exact absurd rfl h1
      | notList => simp [fetchOneRepo, h1] at h
      | list cs =>
        exact ⟨_, _, cs, rfl, Or.inl rfl, List.mem_of_find?_eq_some h⟩

/-- Non-negativity of every weekly counter the provider may hand to the
pipeline: for each repository answering with a contributor list (on
either call), every contributor's weeks have non-negative `a`, `d`, `c`. -/
def WorldNonneg (w : World) : Prop :=
  ∀ repo r1 r2, w.stats repo = .responds r1 r2 →
    ∀ cs, (r1 = .list cs ∨ r2 = .list cs) →
      ∀ c ∈ cs, ∀ x ∈ c.weeks, 0 ≤ x.a ∧ 0 ≤ x.d ∧ 0 ≤ x.c

theorem entries_nonneg (u : String) (io : Option String) (w : World)
    (hnn : WorldNonneg w) :
    ∀ x ∈ collectEntries
        (((discover w io).map (fun r => fetchOneRepo u (w.stats r))).map (·.1)),
      0 ≤ x.a ∧ 0 ≤ x.d ∧ 0 ≤ x.c := by
  intro x hx
  obtain ⟨c, hcmem, hxc⟩ := mem_collectEntries _ x hx
  rw [List.mem_map] at hcmem
  obtain ⟨res, hres, hres1⟩ := hcmem
  rw [List.mem_map] at hres
  obtain ⟨repo, _, hrepo⟩ := hres
  have hco : (fetchOneRepo u (w.stats repo)).1 = some c := by
    rw [← hrepo] at hres1
    exact hres1
  obtain ⟨r1, r2, cs, hst, hor, hcs⟩ := fetchOneRepo_some u _ c hco
  exact hnn repo r1 r2 hst cs hor c hcs x hxc

theorem hasActive_perm (e1 e2 : List WeekIn) (h : List.Perm e1 e2) (wk : Int) :
    hasActive e1 wk = hasActive e2 wk := by
  apply Bool.eq_iff_iff.mpr
  unfold hasActive
  rw [List.any_eq_true, List.any_eq_true]
  constructor <;> rintro ⟨x, hx, hp⟩
  · exact ⟨x, h.mem_iff.mp hx, hp⟩
  · exact ⟨x, h.mem_iff.mpr hx, hp⟩

theorem sumA_perm (e1 e2 : List WeekIn) (h : List.Perm e1 e2) (wk : Int) :
    sumA e1 wk = sumA e2 wk :=
  ((h.filter _).map _).sum_eq

theorem sumD_perm (e1 e2 : List WeekIn) (h : List.Perm e1 e2) (wk : Int) :
    sumD e1 wk = sumD e2 wk :=
  ((h.filter _).map _).sum_eq

theorem sumC_perm (e1 e2 : List WeekIn) (h : List.Perm e1 e2) (wk : Int) :
    sumC e1 wk = sumC e2 wk :=
  ((h.filter _).map _).sum_eq

theorem sortedWeeks_perm_eq (e1 e2 : List WeekIn) (h : List.Perm e1 e2) :
    sortedWeeks e1 = sortedWeeks e2 := by
  have hk : List.Perm ((weeklyMapOf e1).map (·.w)) ((weeklyMapOf e2).map (·.w)) := by
    rw [List.perm_ext_iff_of_nodup (nodup_keys_weeklyMapOf e1) (nodup_keys_weeklyMapOf e2)]
    intro wk
    rw [mem_keys_weeklyMapOf, mem_keys_weeklyMapOf, hasActive_perm e1 e2 h wk]
  exact List.eq_of_perm_of_sorted
    (((sortedWeeks_perm e1).trans hk).trans (sortedWeeks_perm e2).symm)
    (sortedWeeks_sorted e1) (sortedWeeks_sorted e2)

theorem weeklyDataOf_perm (e1 e2 : List WeekIn) (h : List.Perm e1 e2) :
    weeklyDataOf e1 = weeklyDataOf e2 := by
  rw [weeklyDataOf_eq, weeklyDataOf_eq, sortedWeeks_perm_eq e1 e2 h]
  apply List.map_congr_left
  intro wk _
  rw [sumA_perm e1 e2 h wk, sumD_perm e1 e2 h wk, sumC_perm e1 e2 h wk]

theorem locDataOf_perm (e1 e2 : List WeekIn) (h : List.Perm e1 e2) :
    locDataOf e1 = locDataOf e2 := by
  have hw := weeklyDataOf_perm e1 e2 h
  simp only [locDataOf, hw]

theorem collectEntries_perm (rs1 rs2 : List (Option Contributor))
    (h : List.Perm rs1 rs2) :
    List.Perm (collectEntries rs1) (collectEntries rs2) :=
  ((h.filterMap id).map _).flatten

/-- The Weekly Aggregator on its own: merge the per-repository results
(step 2 of `fetchLoc`) and build the sorted, totalized series (step 3). -/
def aggregate (rs : List (Option Contributor)) : LocData :=
  locDataOf (collectEntries rs)

/-- A world with no data at all (every source fails). -/
def wEmpty : World :=
  ⟨none, fun _ => none, fun _ => .failed⟩

/-- A world with one repository whose contributor statistics list the
target user with the spec §8 example figures. -/
def wExample : World :=
  ⟨some [⟨"alice", "r1"⟩], fun _ => none,
   fun _ => .responds
     (.list [⟨some "Alice", [⟨0, 100, 20, 1⟩, ⟨604800, 50, 10, 2⟩]⟩]) .notList⟩

/-- The `LocData` that `fetchLoc "alice"` produces in `wExample`. -/
def dExample : LocData :=
  ⟨[⟨0, 100, 20, 1⟩, ⟨604800, 50, 10, 2⟩], 150, 30, 3, 120⟩

/-- C1: for every per-repository weekly input, the `LocData` returned by
`fetchLoc` has `totalAdditions`/`totalDeletions`/`totalCommits` equal to
the field sums over `weeklyData`, and `netLines = totalAdditions -
totalDeletions`. -/
theorem c1_totals_are_sums (u : String) (io : Option String) (w : World) (d : LocData)
    (h : (fetchLoc u io w).1 = .ok d) :
    d.totalAdditions = (d.weeklyData.map (·.additions)).sum
    ∧ d.totalDeletions = (d.weeklyData.map (·.deletions)).sum
    ∧ d.totalCommits = (d.weeklyData.map (·.commits)).sum
    ∧ d.netLines = d.totalAdditions - d.totalDeletions := by
  obtain rfl := fetchLoc_ok u io w d h
  refine ⟨?_, ?_, ?_, rfl⟩ <;> simp [locDataOf, totalOf_eq_sum]

/-- Witness for C1: the spec §8 example, run through the whole pipeline. -/
theorem c1_totals_are_sums_witness :
    (fetchLoc "alice" none wExample).1 = Except.ok dExample
    ∧ dExample.netLines = dExample.totalAdditions - dExample.totalDeletions :=
  have hok : (fetchLoc "alice" none wExample).1 = Except.ok dExample := by rfl
  ⟨hok, (c1_totals_are_sums "alice" none wExample dExample hok).2.2.2⟩

theorem wExample_nonneg : WorldNonneg wExample := by
  intro repo r1 r2 hst cs hor c hc x hx
  have h1 : StatsResp.list [⟨some "Alice", [⟨0, 100, 20, 1⟩, ⟨604800, 50, 10, 2⟩]⟩] = r1 :=
    congrArg (fun o => match o with
      | RepoOutcome.responds a _ => a
      | RepoOutcome.failed => r1) hst
  have h2 : StatsResp.notList = r2 :=
    congrArg (fun o => match o with
      | RepoOutcome.responds _ b => b
      | RepoOutcome.failed => r2) hst
  rcases hor with hl | hl
  · rw [← h1] at hl
    have hcs : cs = [⟨some "Alice", [⟨0, 100, 20, 1⟩, ⟨604800, 50, 10, 2⟩]⟩] := by
      injection hl with h3
      exact h3.symm
    subst hcs
    simp only [List.mem_singleton] at hc
    subst hc
    simp only at hx
    rcases List.mem_cons.mp hx with rfl | hx2
    · exact ⟨by norm_num, by norm_num, by norm_num⟩
    · rcases List.mem_cons.mp hx2 with rfl | hx3
      · exact ⟨by norm_num, by norm_num, by norm_num⟩
      · simp at hx3
  · rw [← h2] at hl
    exact absurd hl (by intro hh; cases hh)

/-- C2: with non-negative weekly counters, the `weeklyData` of the
`LocData` returned by `fetchLoc` is strictly increasing by week (hence
has no duplicate week) and contains no record whose additions, deletions
and commits are all zero. -/
theorem c2_sorted_no_allzero (u : String) (io : Option String) (w : World) (d : LocData)
    (hnn : WorldNonneg w) (h : (fetchLoc u io w).1 = .ok d) :
    d.weeklyData.Pairwise (fun a b => a.week < b.week)
    ∧ ∀ r ∈ d.weeklyData, ¬(r.additions = 0 ∧ r.deletions = 0 ∧ r.commits = 0) := by
  obtain rfl := fetchLoc_ok u io w d h
  constructor
  · exact weeklyDataOf_pairwise _
  · intro r hr
    exact weeklyDataOf_no_allzero _ (entries_nonneg u io w hnn) r hr

/-- Witness for C2 at the concrete example world. -/
theorem c2_sorted_no_allzero_witness :
    dExample.weeklyData.Pairwise (fun a b => a.week < b.week) :=
  (c2_sorted_no_allzero "alice" none wExample dExample wExample_nonneg (by rfl)).1

/-- C3: `fetchLoc` fails with the missing-parameter error exactly for an
empty username, issuing zero network requests in that case; for a
non-empty username it always succeeds, whatever the world does. -/
theorem c3_missing_param_only (u : String) (io : Option String) (w : World) :
    (u = "" → fetchLoc u io w = (.error (.missingParam ["username"]), 0))
    ∧ (u ≠ "" → ∃ d, (fetchLoc u io w).1 = .ok d) := by
  constructor
  · intro h
    rw [fetchLoc, if_pos h]
  · intro h
    exact ⟨_, by rw [fetchLoc, if_neg h]⟩

/-- Witness for C3: empty username fails with zero requests; any
non-empty username succeeds even in a world where every source fails. -/
theorem c3_missing_param_only_witness :
    fetchLoc "" none wEmpty = (.error (.missingParam ["username"]), 0)
    ∧ ∃ d, (fetchLoc "alice" none wEmpty).1 = .ok d :=
  ⟨(c3_missing_param_only "" none wEmpty).1 rfl,
   (c3_missing_param_only "alice" none wEmpty).2 (by decide)⟩

/-- C5: on a 202 "still computing" first response the collector issues
exactly two requests (the retry happens exactly once), and if the second
response is still not a list the repository yields no contributor and
contributes nothing to the aggregate. -/
theorem c5_retry_exactly_once (u : String) (r2 : StatsResp) :
    (fetchOneRepo u (.responds .computing r2)).2 = 2
    ∧ ((∀ cs, r2 ≠ .list cs) →
        (fetchOneRepo u (.responds .computing r2)).1 = none
        ∧ ∀ rest : List (Option Contributor),
            collectEntries ((fetchOneRepo u (.responds .computing r2)).1 :: rest) =
              collectEntries rest) := by
  refine ⟨rfl, ?_⟩
  intro h
  have h1 : (fetchOneRepo u (.responds .computing r2)).1 = none := by
    cases r2 with
    | computing => rfl
    | notList => rfl
    | list cs => exact absurd rfl (h cs)
  refine ⟨h1, ?_⟩
  intro rest
  rw [h1]
  simp [collectEntries]

/-- Witness for C5 at a concrete unready repository. -/
theorem c5_retry_exactly_once_witness :
    (fetchOneRepo "alice" (.responds .computing .notList)).2 = 2
    ∧ (fetchOneRepo "alice" (.responds .computing .notList)).1 = none :=
  ⟨(c5_retry_exactly_once "alice" .notList).1,
   ((c5_retry_exactly_once "alice" .notList).2 (fun _ h => StatsResp.noConfusion h)).1⟩

/-- C6: merging is order-independent — permuting the per-repository
result list yields an identical `LocData` — and deterministic. -/
theorem c6_aggregate_order_independent (rs1 rs2 : List (Option Contributor))
    (h : List.Perm rs1 rs2) :
    aggregate rs1 = aggregate rs2 ∧ aggregate rs1 = aggregate rs1 :=
  ⟨locDataOf_perm _ _ (collectEntries_perm rs1 rs2 h), rfl⟩

/-- Witness for C6 at a concrete pair of permuted result lists. -/
theorem c6_aggregate_order_independent_witness :
    aggregate [some ⟨some "Alice", [⟨0, 5, 3, 1⟩]⟩, none]
      = aggregate [none, some ⟨some "Alice", [⟨0, 5, 3, 1⟩]⟩] :=
  (c6_aggregate_order_independent _ _ (by decide)).1

end Loc

namespace Chart

open Loc (WeeklyData LocData)

theorem le_foldl_max (l : List Int) : ∀ a : Int, a ≤ l.foldl max a := by
  induction l with
  | nil => intro a; exact le_refl a
  | cons x t ih =>
    intro a
    rw [List.foldl_cons]
    exact le_trans (le_max_left a x) (ih (max a x))

theorem foldl_min_le (l : List Int) : ∀ a : Int, l.foldl min a ≤ a := by
  induction l with
  | nil => intro a; exact le_refl a
  | cons x t ih =>
    intro a
    rw [List.foldl_cons]
    exact le_trans (ih (min a x)) (min_le_left a x)

theorem maxVal_nonneg (pts : List ChartPoint) : 0 ≤ maxVal pts :=
  le_foldl_max _ 0

theorem minVal_nonpos (pts : List ChartPoint) : minVal pts ≤ 0 :=
  foldl_min_le _ 0

/-- The clamped value range is always positive: no division by zero in
`toY`. -/
theorem valRange_pos (pts : List ChartPoint) : 0 < valRange pts := by
  have h1 := maxVal_nonneg pts
  have h2 := minVal_nonpos pts
  unfold valRange
  split
  · norm_num
  · omega

theorem cumGo_length (wd : List WeeklyData) : ∀ acc, (cumGo acc wd).length = wd.length := by
  induction wd with
  | nil => intro acc; rfl
  | cons w rest ih =>
    intro acc
    simp [cumGo, ih]

theorem cumGo_week_map (wd : List WeeklyData) :
    ∀ acc, (cumGo acc wd).map (·.week) = wd.map (·.week) := by
  induction wd with
  | nil => intro acc; rfl
  | cons w rest ih =>
    intro acc
    simp [cumGo, ih]

theorem windowPoints_sublist (allPts : List ChartPoint) (m : Int) (now : ℚ) :
    (windowPoints allPts m now).Sublist allPts := by
  unfold windowPoints
  by_cases hm : 0 < m
  · simp only [if_pos hm]
    by_cases hp : allPts.filter
        (fun p => decide (now - (m : ℚ) * 30 * 86400 ≤ (p.week : ℚ))) = []
    · simp only [hp, if_pos]
      exact List.Sublist.refl _
    · simp only [hp, if_neg, Bool.false_eq_true]
      split
      · exact List.Sublist.refl _
      · exact List.filter_sublist _
  · simp only [if_neg hm]
    exact List.Sublist.refl _

theorem windowPoints_ne_nil (allPts : List ChartPoint) (m : Int) (now : ℚ)
    (h : allPts ≠ []) : windowPoints allPts m now ≠ [] := by
  unfold windowPoints
  by_cases hm : 0 < m
  · simp only [if_pos hm]
    split
    · exact h
    · assumption
  · simp only [if_neg hm]
    exact h

theorem head_week_le (l : List ChartPoint)
    (hp : l.Pairwise (fun a b => a.week ≤ b.week)) :
    ∀ x ∈ l, (l.headD default).week ≤ x.week := by
  cases l with
  | nil => intro x hx; cases hx
  | cons a t =>
    intro x hx
    rcases List.mem_cons.mp hx with rfl | hxt
    · simp
    · exact (List.pairwise_cons.mp hp).1 x hxt

theorem getLastD_mem (l : List ChartPoint) (h : l ≠ []) : l.getLastD default ∈ l := by
  rw [List.getLastD_eq_getLast?, List.getLast?_eq_getLast l h]
  exact List.getLast_mem h

/-- For a week-sorted non-empty point list, the clamped time range is
positive: no division by zero in `toX`. -/
theorem timeRange_pos (pts : List ChartPoint)
    (hp : pts.Pairwise (fun a b => a.week ≤ b.week)) (h : pts ≠ []) :
    0 < timeRange pts := by
  have hle : minTime pts ≤ maxTime pts :=
    head_week_le pts hp _ (getLastD_mem pts h)
  unfold timeRange
  split
  · norm_num
  · omega

/-- Pairwise ordering of a projected field transfers to the projected
list. -/
theorem pairwise_week_iff {α : Type} (f : α → Int) (l : List α) :
    l.Pairwise (fun a b => f a ≤ f b) ↔ (l.map f).Pairwise (· ≤ ·) :=
  (List.pairwise_map).symm

/-- C4: the renderer is total on well-formed series — for empty
`weeklyData` it returns exactly the fixed-size no-data canvas, and
otherwise it returns a string opening with the fixed-canvas `<svg>`
header, the visible point set is non-empty, and both clamped ranges are
positive (a zero raw range having been replaced by 1), so neither scale
divides by zero. -/
theorem c4_renderer_never_fails (data : LocData) (o : RenderOpts) (now : ℚ)
    (hs : data.weeklyData.Pairwise (fun a b => a.week ≤ b.week)) :
    (data.weeklyData = [] → renderLocChart data o now = emptyChartSvg o)
    ∧ (data.weeklyData ≠ [] →
        windowPoints (cumPoints data.weeklyData) o.months now ≠ []
        ∧ 0 < timeRange (windowPoints (cumPoints data.weeklyData) o.months now)
        ∧ 0 < valRange (windowPoints (cumPoints data.weeklyData) o.months now)
        ∧ (maxTime (windowPoints (cumPoints data.weeklyData) o.months now)
            - minTime (windowPoints (cumPoints data.weeklyData) o.months now) = 0 →
            timeRange (windowPoints (cumPoints data.weeklyData) o.months now) = 1)
        ∧ (maxVal (windowPoints (cumPoints data.weeklyData) o.months now)
            - minVal (windowPoints (cumPoints data.weeklyData) o.months now) = 0 →
            valRange (windowPoints (cumPoints data.weeklyData) o.months now) = 1)
        ∧ ∃ rest, renderLocChart data o now =
            "<svg width=\"850\" height=\"300\" viewBox=\"0 0 850 300\" fill=\"none\" " ++ rest) := by
  constructor
  · intro h
    rw [renderLocChart, if_pos h]
  · intro h
    have hcne : cumPoints data.weeklyData ≠ [] := by
      intro hc
      apply h
      have hlen := congrArg List.length hc
      rw [show cumPoints data.weeklyData = cumGo 0 data.weeklyData from rfl,
        cumGo_length] at hlen
      exact List.length_eq_zero.mp hlen
    have hvis := windowPoints_ne_nil (cumPoints data.weeklyData) o.months now hcne
    have hpw : (windowPoints (cumPoints data.weeklyData) o.months now).Pairwise
        (fun a b => a.week ≤ b.week) := by
      apply List.Pairwise.sublist (windowPoints_sublist _ _ _)
      rw [pairwise_week_iff (fun p : ChartPoint => p.week)]
      have hmap : (cumPoints data.weeklyData).map (fun p : ChartPoint => p.week)
          = data.weeklyData.map (fun r : WeeklyData => r.week) :=
        cumGo_week_map data.weeklyData 0
      rw [hmap, ← pairwise_week_iff (fun r : WeeklyData => r.week)]
      exact hs
    refine ⟨hvis, timeRange_pos _ hpw hvis, valRange_pos _, ?_, ?_, ?_⟩
    · intro hz
      unfold timeRange
      rw [if_pos hz]
    · intro hz
      unfold valRange
      rw [if_pos hz]
    · unfold renderLocChart
      rw [if_neg h]
      simp only [String.append_assoc]
      exact ⟨_, rfl⟩

/-- Witness for C4: the empty series yields the no-data canvas; a
one-point series has positive clamped ranges. -/
theorem c4_renderer_never_fails_witness :
    renderLocChart ⟨[], 0, 0, 0, 0⟩
        ⟨"fffefe", "2f80ed", "434d58", "e4e2e2", "2563EB", "10B981", "F59E0B", "DC2626",
         true, none, 0⟩ 0
      = emptyChartSvg
        ⟨"fffefe", "2f80ed", "434d58", "e4e2e2", "2563EB", "10B981", "F59E0B", "DC2626",
         true, none, 0⟩
    ∧ 0 < timeRange (windowPoints (cumPoints [⟨0, 1, 0, 0⟩]) 0 0) :=
  ⟨(c4_renderer_never_fails ⟨[], 0, 0, 0, 0⟩ _ 0 (List.Pairwise.nil)).1 rfl,
   ((c4_renderer_never_fails ⟨[⟨0, 1, 0, 0⟩], 1, 0, 0, 1⟩
       ⟨"fffefe", "2f80ed", "434d58", "e4e2e2", "2563EB", "10B981", "F59E0B", "DC2626",
        true, none, 0⟩ 0 (by simp)).2 (by simp)).2.1⟩

/-- C7: with a months window `m > 0`, the visible set is exactly the
filter of points at or after `now - m*30*86400`; an empty filter falls
back to the full series, so a non-empty series never renders an empty
point set. -/
theorem c7_months_window (allPts : List ChartPoint) (m : Int) (now : ℚ) (hm : 0 < m) :
    (allPts.filter (fun p => decide (now - (m : ℚ) * 30 * 86400 ≤ (p.week : ℚ))) ≠ [] →
      windowPoints allPts m now =
        allPts.filter (fun p => decide (now - (m : ℚ) * 30 * 86400 ≤ (p.week : ℚ))))
    ∧ (allPts.filter (fun p => decide (now - (m : ℚ) * 30 * 86400 ≤ (p.week : ℚ))) = [] →
        windowPoints allPts m now = allPts)
    ∧ (allPts ≠ [] → windowPoints allPts m now ≠ []) := by
  refine ⟨?_, ?_, windowPoints_ne_nil allPts m now⟩
  · intro hne
    unfold windowPoints
    simp only [if_pos hm]
    rw [if_neg hne]
  · intro he
    unfold windowPoints
    simp only [if_pos hm]
    rw [if_pos he]

/-- Witness for C7: a window that clips everything falls back to the
full series. -/
theorem c7_months_window_witness :
    windowPoints [⟨0, 1, 1, 0⟩] 1 10000000 = [⟨0, 1, 1, 0⟩] :=
  (c7_months_window [⟨0, 1, 1, 0⟩] 1 10000000 (by norm_num)).2.1
    (by simp only [List.filter_cons, List.filter_nil, decide_eq_true_eq]; norm_num)

/-- C8 counterexample: the claim that the i-th visible point's value is
the running sum over the first i *visible* points fails whenever the
window clips a non-zero prefix — the code accumulates over the full
history before windowing.  Here the single visible point plots 120, but
the sum of (additions - deletions) over the visible points is 40. -/
theorem c8_counterexample :
    ((windowPoints (cumPoints [⟨0, 100, 20, 1⟩, ⟨1000000, 50, 10, 2⟩]) 1 3092000).map
        (·.value)) = [120]
    ∧ (((windowPoints (cumPoints [⟨0, 100, 20, 1⟩, ⟨1000000, 50, 10, 2⟩]) 1 3092000).take 1).map
        (fun p => p.additions - p.deletions)).sum = 40
    ∧ (120 : Int) ≠ 40 := by
  have hwin : windowPoints (cumPoints [⟨0, 100, 20, 1⟩, ⟨1000000, 50, 10, 2⟩]) 1 3092000
      = [⟨1000000, 120, 50, 10⟩] := by
    have hcum : cumPoints [⟨0, 100, 20, 1⟩, ⟨1000000, 50, 10, 2⟩]
        = [⟨0, 80, 100, 20⟩, ⟨1000000, 120, 50, 10⟩] := rfl
    rw [hcum]
    simp only [windowPoints, if_pos, List.filter_cons, List.filter_nil, decide_eq_true_eq]
    norm_num
  rw [hwin]
  refine ⟨by decide, by decide, by decide⟩

/-- C8 (amended): cumulative mode builds the running net-lines total
over the *full* series — the i-th point of `cumPoints` carries the sum
of (additions - deletions) over the first i+1 weekly records — and
windowing only selects points of that series, preserving their values. -/
theorem c8_running_total (wd : List WeeklyData) (m : Int) (now : ℚ) :
    (∀ i (h : i < (cumPoints wd).length),
        ((cumPoints wd).get ⟨i, h⟩).value =
          ((wd.take (i + 1)).map (fun r => r.additions - r.deletions)).sum)
    ∧ ∀ p ∈ windowPoints (cumPoints wd) m now, p ∈ cumPoints wd := by
  constructor
  · have main : ∀ (l : List WeeklyData) (acc : Int) (i : Nat)
        (h : i < (cumGo acc l).length),
        ((cumGo acc l).get ⟨i, h⟩).value =
          acc + ((l.take (i + 1)).map (fun r => r.additions - r.deletions)).sum := by
      intro l
      induction l with
      | nil => intro acc i h; simp [cumGo] at h
      | cons w rest ih =>
        intro acc i h
        cases i with
        | zero => simp [cumGo]; omega
        | succ j =>
          have hj : j < (cumGo (acc + w.additions - w.deletions) rest).length := by
            have := h
            simp [cumGo] at this
            rw [cumGo_length] at this ⊢
            omega
          have hstep : ((cumGo acc (w :: rest)).get ⟨j + 1, h⟩) =
              ((cumGo (acc + w.additions - w.deletions) rest).get ⟨j, hj⟩) := rfl
          rw [hstep, ih]
          simp only [List.take_succ_cons, List.map_cons, List.sum_cons]
          omega
    intro i h
    show ((cumGo 0 wd).get ⟨i, h⟩).value = _
    rw [main wd 0 i h]
    omega
  · intro p hp
    exact (windowPoints_sublist (cumPoints wd) m now).mem hp

/-- Witness for C8 (amended) at the spec §8 example: cumulative values
80 then 120. -/
theorem c8_running_total_witness :
    ((cumPoints [⟨0, 100, 20, 1⟩, ⟨604800, 50, 10, 2⟩]).get ⟨1, by decide⟩).value = 120 := by
  have h := (c8_running_total [⟨0, 100, 20, 1⟩, ⟨604800, 50, 10, 2⟩] 0 0).1 1 (by decide)
  rw [h]
  decide

/-- C9 counterexample: with all visible additions zero the code clamps
the additions peak to 1 (`Math.max(..., 1)`), so the baseline is not at
`padding.top + chartH * (maxAdditions / (maxAdditions + maxDeletions))`
(which would put it at the top of the chart area, y = 50). -/
theorem c9_counterexample :
    baselineY [⟨2024, 0, 0, 100⟩] ≠ specBaselineY [⟨2024, 0, 0, 100⟩]
    ∧ specBaselineY [⟨2024, 0, 0, 100⟩] = 50
    ∧ baselineY [⟨2024, 0, 0, 100⟩] = 50 + 200 / 101 := by
  refine ⟨?_, ?_, ?_⟩ <;>
    norm_num [baselineY, specBaselineY, addRatio, maxAdd, maxDel, padTop, chartH,
      height, padBottom, List.foldl_cons, List.foldl_nil]

/-- C9 (amended): the baseline sits at `padding.top + chartH * (A / (A +
D))` where `A`/`D` are the visible additions/deletions peaks clamped to
at least 1; the denominator is thus never zero, and the baseline lies
strictly inside the chart area even when all visible additions (or
deletions) are zero. -/
theorem c9_baseline_clamped (md : List Chart.MonthEntry) (_h : md ≠ []) :
    baselineY md = padTop + chartH * ((maxAdd md : ℚ) / ((maxAdd md : ℚ) + (maxDel md : ℚ)))
    ∧ 1 ≤ maxAdd md ∧ 1 ≤ maxDel md
    ∧ padTop < baselineY md ∧ baselineY md < padTop + chartH := by
  have hA : (1 : Int) ≤ maxAdd md := le_foldl_max _ 1
  have hD : (1 : Int) ≤ maxDel md := le_foldl_max _ 1
  have hAq : (1 : ℚ) ≤ (maxAdd md : ℚ) := by exact_mod_cast hA
  have hDq : (1 : ℚ) ≤ (maxDel md : ℚ) := by exact_mod_cast hD
  have hsum : (0 : ℚ) < (maxAdd md : ℚ) + (maxDel md : ℚ) := by linarith
  have hr0 : 0 < addRatio md := div_pos (by linarith) hsum
  have hr1 : addRatio md < 1 := by
    rw [addRatio, div_lt_one hsum]
    linarith
  have hch : (0 : ℚ) < chartH := by norm_num [chartH, height, padTop, padBottom]
  refine ⟨rfl, hA, hD, ?_, ?_⟩
  · unfold baselineY
    have := mul_pos hch hr0
    linarith
  · unfold baselineY
    have : chartH * addRatio md < chartH * 1 := by
      exact mul_lt_mul_of_pos_left hr1 hch
    linarith

/-- Witness for C9 (amended) at a concrete month set. -/
theorem c9_baseline_clamped_witness :
    padTop < baselineY [⟨2024, 0, 5, 7⟩] :=
  (c9_baseline_clamped [⟨2024, 0, 5, 7⟩] (by decide)).2.2.2.1

/-- C10: the cumulative formatters suffix M/K only for values at or
above 1000000 / 1000 and print every negative value as its plain decimal
string (so -1500000 renders as "-1500000"), while the monthly-bar
formatter branches on the absolute value and does compact large negative
values (-1500000 renders as "-1.5M"). -/
theorem c10_formatNum_polarity :
    (∀ n : Int, n < 0 → formatNumCum n = toString n)
    ∧ (∀ n : Int, 1000000 ≤ n → formatNumCum n = toFixed1 ((n : ℚ) / 1000000) ++ "M")
    ∧ (∀ n : Int, 1000 ≤ n → n < 1000000 →
        formatNumCum n = toFixed1 ((n : ℚ) / 1000) ++ "K")
    ∧ (∀ n : Int, n ≤ -1000000 → formatNumBar n = toFixed1 ((n : ℚ) / 1000000) ++ "M")
    ∧ formatNumCum (-1500000) = "-1500000"
    ∧ formatNumBar (-1500000) = "-1.5M" := by
  refine ⟨?_, ?_, ?_, ?_, ?_, ?_⟩
  · intro n hn
    unfold formatNumCum
    rw [if_neg (by omega), if_neg (by omega)]
  · intro n hn
    unfold formatNumCum
    rw [if_pos hn]
  · intro n h1 h2
    unfold formatNumCum
    rw [if_neg (by omega), if_pos h1]
  · intro n hn
    unfold formatNumBar
    rw [if_pos (by omega)]
  · decide
  · have hnat : (1000000 : Nat) ≤ (-1500000 : Int).natAbs := by decide
    have hfloor : (⌊((-1500000 : Int) : ℚ) / 1000000 * 10 + 1 / 2⌋ : Int) = -15 := by
      rw [Int.floor_eq_iff]
      norm_num
    simp only [formatNumBar, toFixed1]
    rw [if_pos hnat, hfloor]
    decide

/-- Witness for C10 at concrete values. -/
theorem c10_formatNum_polarity_witness :
    formatNumCum (-7) = "-7" ∧ formatNumCum 1500 = "1.5K" := by
  constructor
  · rw [c10_formatNum_polarity.1 (-7) (by norm_num)]
    decide
  · rw [c10_formatNum_polarity.2.2.1 1500 (by norm_num) (by norm_num)]
    have hfloor : (⌊((1500 : Int) : ℚ) / 1000 * 10 + 1 / 2⌋ : Int) = 15 := by
      rw [Int.floor_eq_iff]
      norm_num
    simp only [toFixed1]
    rw [hfloor]
    decide

end Chart
